import Mathlib

/-!
Shallow embedding of the SIMD batch-kernel examples from
`hands-on-simd-programming`, together with theorems settling the spec's
claims about them.

Floating-point values are modelled as rationals (`ℚ`): lane-wise vector
operations are exact there, and evaluation-order properties are settled
over a free expression carrier (`FE`) where only the order of operations
distinguishes two computations.  AVX vectors (`__m256`) are modelled as
`Fin 8 → α`; the arithmetic the kernels use is abstracted into `SimdOps`
so the same source translation can be instantiated at `ℚ` (for value
claims) and at `FE` (for operation-order claims).
-/

namespace SimdSpec

/-- The arithmetic operations a dot-product kernel uses, abstracted so the
source code can be read both over `ℚ` and over a free expression carrier. -/
structure SimdOps (α : Type) where
  zero : α
  add : α → α → α
  mul : α → α → α

/-- An AVX 256-bit register of 8 float lanes (`__m256`). -/
abbrev Vec8 (α : Type) := Fin 8 → α

/-- A `Vec3Array` (structure-of-arrays layout) from `02_dot_product`:
three component arrays, modelled as total index functions. -/
structure Vec3Arr (α : Type) where
  x : ℕ → α
  y : ℕ → α
  z : ℕ → α

/-- `_mm256_add_ps`: lane-wise addition of two 8-lane vectors. -/
def add_ps {α : Type} (ops : SimdOps α) (a b : Vec8 α) : Vec8 α :=
  fun j => ops.add (a j) (b j)

/-- `_mm256_setzero_ps`: the all-zero 8-lane vector. -/
def setzero_ps {α : Type} (ops : SimdOps α) : Vec8 α :=
  fun _ => ops.zero

/-- `simdDotProductSoA8`: lane `j` holds the dot product of the vectors at
index `offset + j`, built as `mul` then two fused multiply-adds, exactly in
the source's order: `result = x1*x2`, `result = fmadd(y1,y2,result)`,
`result = fmadd(z1,z2,result)`. -/
def simdDotProductSoA8 {α : Type} (ops : SimdOps α) (v1 v2 : Vec3Arr α)
    (offset : ℕ) : Vec8 α :=
  fun j =>
    let r1 := ops.mul (v1.x (offset + j)) (v2.x (offset + j))
    let r2 := ops.add (ops.mul (v1.y (offset + j)) (v2.y (offset + j))) r1
    ops.add (ops.mul (v1.z (offset + j)) (v2.z (offset + j))) r2

/-- `Vec3::dot`: the scalar dot product `x*x' + y*y' + z*z'`,
left-associated as C++ evaluates it. -/
def vec3dot {α : Type} (ops : SimdOps α) (v1 v2 : Vec3Arr α) (i : ℕ) : α :=
  ops.add (ops.add (ops.mul (v1.x i) (v2.x i)) (ops.mul (v1.y i) (v2.y i)))
    (ops.mul (v1.z i) (v2.z i))

/-- The main loop of `simdDotProductLarge`:
`sum = 0; for (i = 0; i < blocks; i++) sum = add_ps(sum, dot8(i*8))`.
`loopAcc ops v1 v2 m` is the accumulator after `m` iterations. -/
def loopAcc {α : Type} (ops : SimdOps α) (v1 v2 : Vec3Arr α) : ℕ → Vec8 α
  | 0 => setzero_ps ops
  | m + 1 => add_ps ops (loopAcc ops v1 v2 m) (simdDotProductSoA8 ops v1 v2 (m * 8))

/-- The horizontal-sum step of `simdDotProductLarge`: store the 8 lanes to
an array and run `total = 0; for (i = 0; i < 8; i++) total += arr[i]`. -/
def hsum {α : Type} (ops : SimdOps α) (v : Vec8 α) : α :=
  List.foldl ops.add ops.zero ((List.finRange 8).map v)

/-- `simdDotProductLarge`: process `size / 8` full blocks with the vector
accumulator, horizontally sum the accumulator, then add the remainder
vectors' scalar dot products one at a time. -/
def simdDotProductLarge {α : Type} (ops : SimdOps α) (size : ℕ)
    (v1 v2 : Vec3Arr α) : α :=
  let blocks := size / 8
  let total := hsum ops (loopAcc ops v1 v2 blocks)
  List.foldl (fun t i => ops.add t (vec3dot ops v1 v2 i)) total
    (List.range' (blocks * 8) (size % 8))

/-- `scalarDotProduct`: `sum = 0; for (i = 0; i < size; i++) sum += dot(i)`. -/
def scalarDotProduct {α : Type} (ops : SimdOps α) (size : ℕ)
    (v1 v2 : Vec3Arr α) : α :=
  List.foldl (fun s i => ops.add s (vec3dot ops v1 v2 i)) ops.zero
    (List.range size)

/-- Rational-number instantiation of the kernel arithmetic (the exact model
of the float operations). -/
def qOps : SimdOps ℚ := ⟨0, fun a b => a + b, fun a b => a * b⟩

/-- Free expression carrier: formal sums/products over indexed leaves.
Two computations are equal here exactly when they perform the same
operations in the same order, which is what distinguishes sequential from
pairwise summation. -/
inductive FE where
  | leaf : ℕ → FE
  | zero : FE
  | add : FE → FE → FE
  | mul : FE → FE → FE
deriving DecidableEq

/-- The kernel arithmetic read over the free expression carrier. -/
def feOps : SimdOps FE := ⟨FE.zero, FE.add, FE.mul⟩

/-- Modelled from the spec: "reduce the final accumulator's `W` lanes to
one scalar using pairwise (tree) summation" — lanes are combined as a
balanced binary tree. -/
def hsumPairwise {α : Type} (ops : SimdOps α) (v : Vec8 α) : α :=
  ops.add
    (ops.add (ops.add (v 0) (v 1)) (ops.add (v 2) (v 3)))
    (ops.add (ops.add (v 4) (v 5)) (ops.add (v 6) (v 7)))

/-- Modelled from the spec: "naive sequential summation" of the 8 lanes —
add the lanes one at a time, in index order, into a running scalar that
starts at zero. -/
def hsumSequential {α : Type} (ops : SimdOps α) (v : Vec8 α) : α :=
  ops.add (ops.add (ops.add (ops.add (ops.add (ops.add (ops.add
    (ops.add ops.zero (v 0)) (v 1)) (v 2)) (v 3)) (v 4)) (v 5)) (v 6)) (v 7)

/-- Modelled from the spec (§4.3): the reduction as the spec describes
it — the same main loop, then a *pairwise* collapse of the final
accumulator, then the scalar remainder contributions added last. -/
def reduceAsSpecified {α : Type} (ops : SimdOps α) (size : ℕ)
    (v1 v2 : Vec3Arr α) : α :=
  let blocks := size / 8
  let total := hsumPairwise ops (loopAcc ops v1 v2 blocks)
  List.foldl (fun t i => ops.add t (vec3dot ops v1 v2 i)) total
    (List.range' (blocks * 8) (size % 8))

/-- Concrete free-carrier input: six component arrays of pairwise
distinct formal leaves. -/
def feArr1 : Vec3Arr FE :=
  ⟨fun i => .leaf (6 * i), fun i => .leaf (6 * i + 1), fun i => .leaf (6 * i + 2)⟩

/-- Second concrete free-carrier input, with leaves disjoint from
`feArr1`. -/
def feArr2 : Vec3Arr FE :=
  ⟨fun i => .leaf (6 * i + 3), fun i => .leaf (6 * i + 4), fun i => .leaf (6 * i + 5)⟩

/-- The `scalar_clamp` operation from `01_conditional_code`: per element,
`std::max(5.0f, std::min(30.0f, x))`. -/
def scalar_clamp (input : List ℚ) : List ℚ :=
  input.map (fun x => max 5 (min 30 x))

/-- The `simd_clamp` operation from `01_conditional_code`: lane-wise
`_mm256_min_ps` with the broadcast 30, then `_mm256_max_ps` with the
broadcast 5. -/
def simd_clamp (input : List ℚ) : List ℚ :=
  input.map (fun x => max (min x 30) 5)

/-- The array named `a` in the spec's clamp scenario. -/
def clampInput : List ℚ := [5, 10, 15, 20, 25, 30, 35, 40]

/-- The output the spec's clamp scenario expects. -/
def clampSpecExpected : List ℚ := [5, 10, 15, 20, 25, 30, 35, 30]

/-- A `Vec3` (array-of-structures element) from `02_dot_product`. -/
structure Vec3 where
  x : ℚ
  y : ℚ
  z : ℚ

/-- `Vec3::dot`: `x*other.x + y*other.y + z*other.z`. -/
def Vec3.dot (v w : Vec3) : ℚ :=
  v.x * w.x + v.y * w.y + v.z * w.z

/-- `_mm_hadd_ps`: horizontal addition of adjacent pairs of two 4-lane
vectors: `(a0+a1, a2+a3, b0+b1, b2+b3)`. -/
def mm_hadd_ps (a b : Fin 4 → ℚ) : Fin 4 → ℚ :=
  ![a 0 + a 1, a 2 + a 3, b 0 + b 1, b 2 + b 3]

/-- `simdDotProductSingle`: load `(x, y, z, 0)` for each vector, multiply
lane-wise, apply `_mm_hadd_ps` twice, extract lane 0. -/
def simdDotProductSingle (v1 v2 : Vec3) : ℚ :=
  let vec1 : Fin 4 → ℚ := ![v1.x, v1.y, v1.z, 0]
  let vec2 : Fin 4 → ℚ := ![v2.x, v2.y, v2.z, 0]
  let mul : Fin 4 → ℚ := fun i => vec1 i * vec2 i
  let hadd1 := mm_hadd_ps mul mul
  let hadd2 := mm_hadd_ps hadd1 hadd1
  hadd2 0

/-- `v1 = (0.5, -0.3, 0.8)` from the single-dot-product demo. -/
def v1Demo : Vec3 := ⟨1/2, -3/10, 4/5⟩

/-- `v2 = (0.2, 0.7, -0.4)` from the single-dot-product demo. -/
def v2Demo : Vec3 := ⟨1/5, 7/10, -2/5⟩

/-- `_mm256_set_epi32` lists its arguments from the highest lane down:
lane 0 receives the last argument. -/
def mm256_set_epi32 (e7 e6 e5 e4 e3 e2 e1 e0 : ℤ) : Fin 8 → ℤ :=
  ![e0, e1, e2, e3, e4, e5, e6, e7]

/-- `_mm256_set_ps`, the same highest-lane-first argument order for
float lanes. -/
def mm256_set_ps (e7 e6 e5 e4 e3 e2 e1 e0 : ℚ) : Vec8 ℚ :=
  ![e0, e1, e2, e3, e4, e5, e6, e7]

/-- AVX masked loads/stores read a lane's mask as its sign bit: a lane
participates iff its 32-bit mask value is negative. -/
def maskFromInts (m : Fin 8 → ℤ) : Fin 8 → Bool :=
  fun i => decide (m i < 0)

/-- `_mm256_maskload_ps`: selected lanes read from memory; unselected
lanes are set to zero. -/
def mm256_maskload_ps (src : Fin 8 → ℚ) (mask : Fin 8 → Bool) : Vec8 ℚ :=
  fun i => if mask i then src i else 0

/-- `_mm256_maskstore_ps`: selected lanes of memory are overwritten with
the vector's lane; unselected lanes keep their previous contents. -/
def mm256_maskstore_ps (mem : Fin 8 → ℚ) (mask : Fin 8 → Bool)
    (v : Vec8 ℚ) : Fin 8 → ℚ :=
  fun i => if mask i then v i else mem i

/-- `_mm256_blendv_ps`: per lane, take `b` where the mask is set,
else `a`. -/
def mm256_blendv_ps (a b : Vec8 ℚ) (mask : Fin 8 → Bool) : Vec8 ℚ :=
  fun i => if mask i then b i else a i

/-- `aligned_data` from `04_loading_data` after initialization: element
`i` holds `i + 1`. -/
def alignedDataInit : Fin 8 → ℚ :=
  ![1, 2, 3, 4, 5, 6, 7, 8]

/-- The masked-load demo mask `_mm256_set_epi32(0,-1,0,-1,0,-1,0,-1)`:
even lanes selected. -/
def maskloadDemoMask : Fin 8 → Bool :=
  maskFromInts (mm256_set_epi32 0 (-1) 0 (-1) 0 (-1) 0 (-1))

/-- The masked-load demo from `04_loading_data`. -/
def maskloadDemo : Vec8 ℚ :=
  mm256_maskload_ps alignedDataInit maskloadDemoMask

/-- The masked-store demo mask `_mm256_set_epi32(-1,0,-1,0,-1,0,-1,0)`:
odd lanes selected. -/
def maskstoreDemoMask : Fin 8 → Bool :=
  maskFromInts (mm256_set_epi32 (-1) 0 (-1) 0 (-1) 0 (-1) 0)

/-- `test_vec = _mm256_set_ps(16,14,12,10,8,6,4,2)`. -/
def testVec : Vec8 ℚ := mm256_set_ps 16 14 12 10 8 6 4 2

/-- The masked-store demo from `04_loading_data`: the buffer is reset to
all zeros, then `test_vec` is masked-stored over it with the odd-lane
mask. -/
def maskstoreDemo : Fin 8 → ℚ :=
  mm256_maskstore_ps (fun _ => 0) maskstoreDemoMask testVec

/-- `data1` from `01_conditional_code`. -/
def condData1 : Vec8 ℚ := ![5, 10, 15, 20, 25, 30, 35, 40]

/-- `data2` from `01_conditional_code`. -/
def condData2 : Vec8 ℚ := ![-1, 4, 9, -16, 25, -36, 49, -64]

/-- `_mm256_cmp_ps` with `_CMP_GT_OQ`: lane mask set iff `a > b`. -/
def cmp_gt (a b : Vec8 ℚ) : Fin 8 → Bool :=
  fun i => decide (b i < a i)

/-- `_mm256_and_ps` applied to two comparison masks: lane-wise
conjunction. -/
def and_mask (m1 m2 : Fin 8 → Bool) : Fin 8 → Bool :=
  fun i => m1 i && m2 i

/-- `simd_complex`: blend `data2` over an explicit zero else-branch under
the conjunction of the two comparison masks. -/
def simd_complex : Vec8 ℚ :=
  mm256_blendv_ps (fun _ => 0) condData2
    (and_mask (cmp_gt condData2 (fun _ => 0)) (cmp_gt condData2 condData1))

/-- `scalar_complex`: per element, `data2[i]` when `data2[i] > 0` and
`data2[i] > data1[i]`, else `0`. -/
def scalar_complex : Fin 8 → ℚ :=
  fun i => if 0 < condData2 i ∧ condData1 i < condData2 i then condData2 i else 0

/-- `_mm256_adds_epu8` on one byte lane: unsigned saturating addition. -/
def adds_epu8 (p b : ℕ) : ℕ := min 255 (p + b)

/-- The byte that `_mm256_set1_epi8(static_cast<char>(brightness))`
broadcasts: the low 8 bits of the `int` argument. -/
def set1_epi8_byte (brightness : ℤ) : ℕ := (brightness % 256).toNat

/-- `adjust_brightness_scalar`: per byte, add the `int` brightness and
clamp the result to `[0, 255]`. -/
def adjust_brightness_scalar (image : List ℕ) (brightness : ℤ) : List ℕ :=
  image.map (fun p : ℕ => (min 255 (max 0 ((p : ℤ) + brightness))).toNat)

/-- `adjust_brightness_simd`: while at least 32 bytes remain, saturating
byte addition of the broadcast brightness byte on the next 32-byte
group; then the scalar add-and-clamp loop on the remaining bytes. -/
def adjust_brightness_simd (image : List ℕ) (brightness : ℤ) : List ℕ :=
  if h : 32 ≤ image.length then
    (image.take 32).map (fun p => adds_epu8 p (set1_epi8_byte brightness)) ++
      adjust_brightness_simd (image.drop 32) brightness
  else
    image.map (fun p : ℕ => (min 255 (max 0 ((p : ℤ) + brightness))).toNat)
termination_by image.length
decreasing_by simp only [List.length_drop]; omega

/-- An allocation failure: `aligned_alloc` throws `std::bad_alloc`. -/
inductive AllocationError where
  | badAlloc
deriving DecidableEq

/-- A model of `posix_memalign` as an external collaborator: given the
requested alignment and byte size it returns a status code and an
address. -/
abbrev MemAlign : Type := ℕ → ℕ → ℕ × ℕ

/-- The POSIX contract for `posix_memalign`: when it reports success
(status 0), the returned address satisfies the requested alignment. -/
def MemAlignOk (memalign : MemAlign) : Prop :=
  ∀ alignment bytes : ℕ,
    (memalign alignment bytes).1 = 0 → (memalign alignment bytes).2 % alignment = 0

/-- `aligned_alloc<T>(count, alignment)`: call `posix_memalign` with the
alignment and `count * sizeof(T)` bytes; on nonzero status throw
`std::bad_alloc`, otherwise return the pointer. -/
def aligned_alloc (memalign : MemAlign) (count elemSize alignment : ℕ) :
    Except AllocationError ℕ :=
  let r := memalign alignment (count * elemSize)
  if r.1 ≠ 0 then .error .badAlloc else .ok r.2

/-- The report `benchmark_comparison` prints: elapsed microseconds of
the scalar and of the vector timed loop, and their ratio. -/
structure BenchReport where
  scalarMicros : ℤ
  simdMicros : ℤ
  speedup : ℚ

/-- `for (i = 0; i < k; i++) func();` — apply a callable `k` times to
the ambient state. -/
def iterateCalls {σ : Type} (func : σ → σ) : ℕ → σ → σ
  | 0, s => s
  | k + 1, s => iterateCalls func k (func s)

/-- `benchmark_comparison`: one warm-up call of each callable, then
`iterations` timed calls of each, with the monotonic clock read before
and after each timed loop; it reports the elapsed microseconds of each
loop and `scalar / simd` as the speedup.  The clock is an external
collaborator, modelled by the sequence of values its four reads
return; the callables act on an ambient state `σ`. -/
def benchmark_comparison {σ : Type} (clock : ℕ → ℤ)
    (scalar_func simd_func : σ → σ) (iterations : ℕ) (s0 : σ) :
    σ × BenchReport :=
  let s1 := scalar_func s0
  let s2 := simd_func s1
  let t0 := clock 0
  let s3 := iterateCalls scalar_func iterations s2
  let t1 := clock 1
  let t2 := clock 2
  let s4 := iterateCalls simd_func iterations s3
  let t3 := clock 3
  (s4, ⟨t1 - t0, t3 - t2, ((t1 - t0 : ℤ) : ℚ) / ((t3 - t2 : ℤ) : ℚ)⟩)

/-! ### Helper lemmas for the rational instantiation -/

theorem foldl_qadd_eq (f : ℕ → ℚ) : ∀ (l : List ℕ) (base : ℚ),
    List.foldl (fun s i => qOps.add s (f i)) base l = base + (l.map f).sum := by
  intro l
  induction l with
  | nil => intro base; simp
  | cons a l ih =>
    intro base
    simp only [List.foldl_cons, List.map_cons, List.sum_cons, ih]
    show base + f a + (List.map f l).sum = _
    ring

theorem map_range_add_sum (f : ℕ → ℚ) : ∀ (r a : ℕ),
    ((List.range' a r).map f).sum = ∑ t ∈ Finset.range r, f (a + t) := by
  intro r
  induction r with
  | zero => intro a; simp
  | succ r ih =>
    intro a
    rw [List.range'_succ, Finset.sum_range_succ']
    simp only [List.map_cons, List.sum_cons, ih]
    have hidx : ∀ t : ℕ, a + 1 + t = a + (t + 1) := by intro t; omega
    rw [Finset.sum_congr rfl (fun t _ => by rw [hidx t])]
    simp [add_comm]

theorem hsum_q (w : Vec8 ℚ) : hsum qOps w = ∑ j : Fin 8, w j := by
  rw [Fin.sum_univ_eight]
  show ((((((((0 : ℚ) + w 0) + w 1) + w 2) + w 3) + w 4) + w 5) + w 6) + w 7 = _
  ring

theorem loopAcc_lane (v1 v2 : Vec3Arr ℚ) : ∀ (m : ℕ) (j : Fin 8),
    loopAcc qOps v1 v2 m j =
      ∑ k ∈ Finset.range m, vec3dot qOps v1 v2 (k * 8 + j) := by
  intro m
  induction m with
  | zero => intro j; simp [loopAcc, setzero_ps, qOps]
  | succ m ih =>
    intro j
    simp only [loopAcc, add_ps, Finset.sum_range_succ, ih]
    show qOps.add _ (simdDotProductSoA8 qOps v1 v2 (m * 8) j) = _
    simp only [simdDotProductSoA8, vec3dot, qOps]
    ring

theorem blocks_sum (v1 v2 : Vec3Arr ℚ) : ∀ (m : ℕ),
    (∑ j : Fin 8, ∑ k ∈ Finset.range m, vec3dot qOps v1 v2 (k * 8 + j)) =
      ∑ i ∈ Finset.range (m * 8), vec3dot qOps v1 v2 i := by
  intro m
  induction m with
  | zero => simp
  | succ m ih =>
    have h8 : (m + 1) * 8 = m * 8 + 8 := by ring
    rw [h8, Finset.sum_range_add,
      ← Fin.sum_univ_eq_sum_range (fun t => vec3dot qOps v1 v2 (m * 8 + t)) 8]
    simp only [Finset.sum_range_succ, Finset.sum_add_distrib, ih]

/-- C1: for every input length `size` (including `size = 0` and
`size < 8`), the batch driver `simdDotProductLarge` — full 8-lane blocks
by the vector path, the trailing `size mod 8` vectors by the scalar
path — computes the same value as the pure scalar `scalarDotProduct`
over all `size` elements, exactly in the rational model of the float
arithmetic. -/
theorem simdDotProductLarge_eq_scalar (size : ℕ) (v1 v2 : Vec3Arr ℚ) :
    simdDotProductLarge qOps size v1 v2 = scalarDotProduct qOps size v1 v2 := by
  have hdm : size / 8 * 8 + size % 8 = size := by omega
  simp only [simdDotProductLarge, scalarDotProduct]
  rw [foldl_qadd_eq, foldl_qadd_eq, map_range_add_sum,
    List.range_eq_range' size, map_range_add_sum]
  rw [hsum_q]
  rw [Finset.sum_congr rfl (fun j _ => loopAcc_lane v1 v2 (size / 8) j)]
  rw [blocks_sum]
  rw [← Finset.sum_range_add, hdm]
  simp [qOps]

/-- C2 counterexample: on a size-8 input of distinct formal leaves (one
full block, empty remainder), the value computed by the source's
`simdDotProductLarge` differs, as an operation-order-sensitive
expression, from the spec's description with a pairwise (tree) collapse
of the final accumulator: the code's collapse is not pairwise
summation. -/
theorem simdDotProductLarge_not_pairwise :
    simdDotProductLarge feOps 8 feArr1 feArr2 ≠
      reduceAsSpecified feOps 8 feArr1 feArr2 := by
  decide

/-- C2 (amended): after the main loop of the reduction, the final 8-lane
accumulator is collapsed to one scalar by naive *sequential* summation —
a left-to-right fold over the lanes in index order starting from zero —
and the scalar remainder contributions are added last, after that
collapse.  Stated over an arbitrary carrier, so the equation pins down
the exact operation order. -/
theorem simdDotProductLarge_seq_collapse {α : Type} (ops : SimdOps α)
    (size : ℕ) (v1 v2 : Vec3Arr α) :
    simdDotProductLarge ops size v1 v2 =
      List.foldl (fun t i => ops.add t (vec3dot ops v1 v2 i))
        (hsumSequential ops (loopAcc ops v1 v2 (size / 8)))
        (List.range' (size / 8 * 8) (size % 8)) := rfl

/-- C6: during the reduction, the vector accumulator is updated only by
lane-wise addition: over any carrier, lane `j` of the accumulator after
`m` full-block iterations is exactly the left fold of that lane's
successive per-block dot terms (no cross-lane operation, no mid-loop
collapse); and for a remainder-free size the reduction's result applies
the scalar collapse exactly once, to the accumulator left by the last
iteration. -/
theorem loopAcc_lanewise {α : Type} (ops : SimdOps α) (v1 v2 : Vec3Arr α)
    (m : ℕ) (j : Fin 8) :
    loopAcc ops v1 v2 m j =
      List.foldl (fun s k => ops.add s (simdDotProductSoA8 ops v1 v2 (k * 8) j))
        ops.zero (List.range m)
    ∧ simdDotProductLarge ops (m * 8) v1 v2 = hsum ops (loopAcc ops v1 v2 m) := by
  constructor
  · induction m with
    | zero => rfl
    | succ m ih =>
      rw [List.range_succ, List.foldl_append]
      simp only [List.foldl_cons, List.foldl_nil]
      rw [← ih]
      rfl
  · have h1 : m * 8 / 8 = m := by omega
    have h2 : m * 8 % 8 = 0 := by omega
    simp [simdDotProductLarge, h1, h2]

/-- C3 counterexample: clamping `[5,10,15,20,25,30,35,40]` to `[5,30]`
does not yield the spec's expected `[5,10,15,20,25,30,35,30]` — element
35 must clamp to 30 — on either the scalar or the vector path. -/
theorem clamp_spec_expected_wrong :
    scalar_clamp clampInput ≠ clampSpecExpected ∧
      simd_clamp clampInput ≠ clampSpecExpected := by
  constructor <;> decide

/-- C3 (amended): clamping `[5,10,15,20,25,30,35,40]` to `[5,30]` yields
`[5,10,15,20,25,30,30,30]`, and the scalar and vector clamp paths match
element-wise on this input. -/
theorem clamp_scenario :
    scalar_clamp clampInput = [5, 10, 15, 20, 25, 30, 30, 30] ∧
      simd_clamp clampInput = [5, 10, 15, 20, 25, 30, 30, 30] := by
  constructor <;> decide

/-- C5: the dot product of `v1 = (0.5, -0.3, 0.8)` and
`v2 = (0.2, 0.7, -0.4)` is `-0.43` (`0.1 - 0.21 - 0.32`), by the scalar
path and by the vector path with horizontal reduction alike (exactly, in
the rational model). -/
theorem dot_single_demo :
    Vec3.dot v1Demo v2Demo = -43 / 100 ∧
      simdDotProductSingle v1Demo v2Demo = -43 / 100 := by
  constructor <;>
    norm_num [Vec3.dot, v1Demo, v2Demo, simdDotProductSingle, mm_hadd_ps,
      Matrix.cons_val_zero, Matrix.cons_val_one, Matrix.cons_val_two,
      Matrix.cons_val_three, Matrix.head_cons, Matrix.vecTail, Matrix.vecHead]

/-- C4: in the masked operations, a lane whose mask is false keeps its
pre-operation value exactly: masked store leaves every unselected memory
lane untouched for arbitrary memory, mask and data; the masked-store
demo of `04_loading_data` leaves the zeroed even lanes at zero while
writing `test_vec` into the odd lanes; and `simd_complex`, whose blend
explicitly chooses zero as the else branch, matches its scalar
counterpart on every lane. -/
theorem masked_lanes_preserved (mem : Fin 8 → ℚ) (mask : Fin 8 → Bool)
    (v : Vec8 ℚ) (i : Fin 8) (h : mask i = false) :
    mm256_maskstore_ps mem mask v i = mem i ∧
      (∀ j, maskstoreDemo j = (![0, 4, 0, 8, 0, 12, 0, 16] : Fin 8 → ℚ) j) ∧
      (∀ j, simd_complex j = scalar_complex j) := by
  refine ⟨by simp [mm256_maskstore_ps, h], by decide, by decide⟩

/-- Witness for C4 at a concrete unselected lane: lane 0 of the
masked-store demo mask is off, so storing over a buffer holding 3 leaves
lane 0 at 3. -/
theorem masked_lanes_preserved_witness :
    mm256_maskstore_ps (fun _ => (3 : ℚ)) maskstoreDemoMask testVec 0 = 3 :=
  (masked_lanes_preserved (fun _ => (3 : ℚ)) maskstoreDemoMask testVec 0 (by decide)).1

/-- C10: a masked load writes exactly `0.0` into every lane whose mask
lane is not set and the source value into every selected lane — for
every source array and mask — and the `04_loading_data` demo (even-lane
mask over `[1..8]`) loads `[1,0,3,0,5,0,7,0]`. -/
theorem maskload_zeroes_unselected (src : Fin 8 → ℚ) (mask : Fin 8 → Bool)
    (i : Fin 8) :
    (mask i = true → mm256_maskload_ps src mask i = src i) ∧
      (mask i = false → mm256_maskload_ps src mask i = 0) ∧
      (∀ j, maskloadDemo j = (![1, 0, 3, 0, 5, 0, 7, 0] : Fin 8 → ℚ) j) := by
  refine ⟨fun h => by simp [mm256_maskload_ps, h],
    fun h => by simp [mm256_maskload_ps, h], by decide⟩

/-- Witness for C10 at a concrete lane: lane 1 of the demo mask is off,
so the masked load of the demo buffer yields 0 there. -/
theorem maskload_zeroes_unselected_witness :
    mm256_maskload_ps alignedDataInit maskloadDemoMask 1 = 0 :=
  (maskload_zeroes_unselected alignedDataInit maskloadDemoMask 1).2.1 (by decide)

/-- Saturating byte addition of the broadcast brightness byte agrees
with the scalar add-and-clamp on one byte, for brightness in
`[0, 255]`. -/
theorem adds_eq_clamp (p : ℕ) (b : ℤ) (hb0 : 0 ≤ b) (hb : b ≤ 255) :
    adds_epu8 p (set1_epi8_byte b) =
      (min 255 (max 0 ((p : ℤ) + b))).toNat := by
  have h1 : b % 256 = b := Int.emod_eq_of_lt hb0 (by omega)
  simp only [adds_epu8, set1_epi8_byte, h1]
  omega

theorem brightness_aux (brightness : ℤ) (hb0 : 0 ≤ brightness)
    (hb : brightness ≤ 255) :
    ∀ (n : ℕ) (image : List ℕ), image.length ≤ n →
      adjust_brightness_simd image brightness =
        adjust_brightness_scalar image brightness := by
  intro n
  induction n with
  | zero =>
    intro image h
    have hnil : image = [] := List.length_eq_zero.mp (Nat.le_zero.mp h)
    subst hnil
    simp [adjust_brightness_simd, adjust_brightness_scalar]
  | succ n ih =>
    intro image h
    rw [adjust_brightness_simd]
    by_cases hc : 32 ≤ image.length
    · rw [dif_pos hc]
      have hdrop : (image.drop 32).length ≤ n := by
        simp only [List.length_drop]; omega
      rw [ih _ hdrop]
      have hf : (fun p => adds_epu8 p (set1_epi8_byte brightness)) =
          fun p : ℕ => (min 255 (max 0 ((p : ℤ) + brightness))).toNat :=
        funext fun p => adds_eq_clamp p brightness hb0 hb
      rw [hf]
      simp only [adjust_brightness_scalar]
      rw [← List.map_append, List.take_append_drop]
    · rw [dif_neg hc]
      rfl

/-- C9: for every image (byte array) and every brightness in `[0, 255]`,
the vectorized brightness adjustment — saturating unsigned byte addition
on full 32-byte groups plus the scalar remainder loop — produces
byte-for-byte the same output as the scalar path that adds the
brightness as an `int` and clamps to `[0, 255]`. -/
theorem adjust_brightness_simd_eq_scalar (image : List ℕ) (brightness : ℤ)
    (hb0 : 0 ≤ brightness) (hb : brightness ≤ 255) :
    adjust_brightness_simd image brightness =
      adjust_brightness_scalar image brightness :=
  brightness_aux brightness hb0 hb image.length image le_rfl

/-- Witness for C9 on a concrete 40-byte image (one full 32-byte group
plus an 8-byte remainder) and brightness 50. -/
theorem adjust_brightness_simd_eq_scalar_witness :
    adjust_brightness_simd ((List.range 40).map (fun i => i * 7 % 256)) 50 =
      adjust_brightness_scalar ((List.range 40).map (fun i => i * 7 % 256)) 50 :=
  adjust_brightness_simd_eq_scalar _ 50 (by decide) (by decide)

/-- C7: under the POSIX contract for `posix_memalign`, `aligned_alloc`
either fails with an allocation error or returns an address that is a
multiple of the requested alignment; there is no third outcome. -/
theorem aligned_alloc_dichotomy (memalign : MemAlign)
    (hok : MemAlignOk memalign) (count elemSize alignment : ℕ) :
    aligned_alloc memalign count elemSize alignment = .error .badAlloc ∨
      ∃ p, aligned_alloc memalign count elemSize alignment = .ok p ∧
        p % alignment = 0 := by
  by_cases h : (memalign alignment (count * elemSize)).1 = 0
  · exact Or.inr ⟨_, by simp [aligned_alloc, h], hok _ _ h⟩
  · exact Or.inl (by simp [aligned_alloc, h])

/-- Witness for C7 with a concrete allocator that always succeeds at
address 0 (which satisfies any alignment). -/
theorem aligned_alloc_dichotomy_witness :
    aligned_alloc (fun _ _ => (0, 0)) 8 4 32 = .error .badAlloc ∨
      ∃ p, aligned_alloc (fun _ _ => (0, 0)) 8 4 32 = .ok p ∧ p % 32 = 0 :=
  aligned_alloc_dichotomy (fun _ _ => (0, 0)) (fun a _ _ => Nat.zero_mod a) 8 4 32

theorem iterateCalls_count_fst (k : ℕ) :
    ∀ c : ℕ × ℕ, iterateCalls (fun c : ℕ × ℕ => (c.1 + 1, c.2)) k c =
      (c.1 + k, c.2) := by
  induction k with
  | zero => intro c; rfl
  | succ k ih =>
    intro c
    show iterateCalls _ k (c.1 + 1, c.2) = _
    rw [ih]
    show (c.1 + 1 + k, c.2) = _
    rw [Prod.mk.injEq]
    omega

theorem iterateCalls_count_snd (k : ℕ) :
    ∀ c : ℕ × ℕ, iterateCalls (fun c : ℕ × ℕ => (c.1, c.2 + 1)) k c =
      (c.1, c.2 + k) := by
  induction k with
  | zero => intro c; rfl
  | succ k ih =>
    intro c
    show iterateCalls _ k (c.1, c.2 + 1) = _
    rw [ih]
    show (c.1, c.2 + 1 + k) = _
    rw [Prod.mk.injEq]
    omega

/-- C8: the benchmark harness performs exactly one warm-up call of each
callable followed by exactly `iterations` timed calls of each — the
final state is precisely the composition of those calls, and with
call-counting callables both counters end at `iterations + 1` — and its
report holds the elapsed microseconds of each timed loop together with
`scalar_time / vector_time` as the speedup; the report is computed from
the clock readings alone, never from the kernels' outputs. -/
theorem benchmark_comparison_spec {σ : Type} (clock : ℕ → ℤ) (f g : σ → σ)
    (iterations : ℕ) (s0 : σ) :
    (benchmark_comparison clock f g iterations s0).1 =
        iterateCalls g iterations (iterateCalls f iterations (g (f s0)))
    ∧ (benchmark_comparison clock (fun c : ℕ × ℕ => (c.1 + 1, c.2))
          (fun c : ℕ × ℕ => (c.1, c.2 + 1)) iterations ((0, 0) : ℕ × ℕ)).1 =
        (iterations + 1, iterations + 1)
    ∧ (benchmark_comparison clock f g iterations s0).2 =
        ⟨clock 1 - clock 0, clock 3 - clock 2,
          ((clock 1 - clock 0 : ℤ) : ℚ) / ((clock 3 - clock 2 : ℤ) : ℚ)⟩ := by
  refine ⟨rfl, ?_, rfl⟩
  show (iterateCalls (fun c : ℕ × ℕ => (c.1, c.2 + 1)) iterations
    (iterateCalls (fun c : ℕ × ℕ => (c.1 + 1, c.2)) iterations (1, 1))) = _
  rw [iterateCalls_count_fst, iterateCalls_count_snd]
  rw [Prod.mk.injEq]
  omega

end SimdSpec
